import Mathlib

set_option maxRecDepth 40000

deriving instance DecidableEq for Except

/-!
Verification development for the monodeps change-impact analyzer.

The Rust sources are shallowly embedded: paths are canonical strings, the
filesystem (where a claim needs it) is an explicit structure, fallible
operations return `Option`/`Except`, and the lazily discovered service set is
a `List`.  The definitions below mirror, function by function, the code in
`src/path.rs`, `src/config.rs`, `src/cli.rs`, `src/dependency.rs`,
`src/service.rs`, `src/service/go.rs`, `src/service/proto.rs` and
`src/service/kustomize.rs`.
-/

namespace Monodeps

/-! ## String primitives

The embedding re-implements the string primitives it needs (prefix and
suffix tests, single-character splitting, joining) by structural recursion
over `List Char`, so that every definition evaluates inside the kernel on
concrete inputs.  Each mirrors the obvious Rust `str` method. -/

/-- `str::starts_with`. -/
def strStartsWith (s pre : String) : Bool :=
  pre.data.isPrefixOf s.data

/-- `str::ends_with`. -/
def strEndsWith (s suf : String) : Bool :=
  suf.data.isSuffixOf s.data

/-- `str::contains` with a single-character needle. -/
def strContainsChar (s : String) (c : Char) : Bool :=
  s.data.contains c

/-- Split a character list at every occurrence of a character (the list of
pieces is never empty). -/
def splitOnCharL (c : Char) : List Char → List (List Char)
  | [] => [[]]
  | d :: rest =>
    match splitOnCharL c rest with
    | [] => [[d]]
    | g :: gs => if d = c then [] :: g :: gs else (d :: g) :: gs

/-- `str::split` with a single-character separator, as a list of strings. -/
def splitOnChar (c : Char) (s : String) : List String :=
  (splitOnCharL c s.data).map (fun l => ⟨l⟩)

/-- Join strings with a single-character separator (`[sep]`-intercalation). -/
def joinWithChar (c : Char) : List String → String
  | [] => ""
  | [g] => g
  | g :: g2 :: rest => g ++ c.toString ++ joinWithChar c (g2 :: rest)

/-! ## Path model (`src/path.rs`) -/

/-- Mirrors `PathInfo` from `src/path.rs`: the display form paired with the
lexically canonicalized absolute form.  (`src/dependency.rs` accesses the
display form through a field named `path`; it is the `display_path` field
here.) -/
structure PathInfo where
  display_path : String
  canonicalized : String
deriving DecidableEq, Repr

/-- One folding step of the `path_clean` crate's lexical cleaning: drop empty
and `.` segments, let `..` cancel a preceding real segment, drop `..` at an
absolute root, and keep leading `..` segments of relative paths. -/
def cleanSegs (abs : Bool) (cs : List String) : List String :=
  cs.foldl (fun acc c =>
    if c = "" ∨ c = "." then acc
    else if c = ".." then
      match acc.getLast? with
      | some prev => if prev = ".." then acc ++ [".."] else acc.dropLast
      | none => if abs then acc else [".."]
    else acc ++ [c]) []

/-- Join segments with `/` separators (`String.intercalate "/"`, defined
recursively so that length facts follow by induction). -/
def joinWithSlash : List String → String
  | [] => ""
  | [c] => c
  | c :: c2 :: rest => c ++ "/" ++ joinWithSlash (c2 :: rest)

/-- The `path_clean` crate's `clean` on a path string. -/
def cleanPath (p : String) : String :=
  let abs := strStartsWith p "/"
  let segs := cleanSegs abs (splitOnChar '/' p)
  if abs then "/" ++ joinWithSlash segs
  else if segs.isEmpty then "." else joinWithSlash segs

/-- `Path::join` of Rust: an absolute right operand replaces the left one,
otherwise the two are joined with a separator. -/
def rustJoin (root p : String) : String :=
  if strStartsWith p "/" then p
  else if root = "" then p
  else if strEndsWith root "/" then root ++ p
  else root ++ "/" ++ p

/-- Mirrors `canonicalize` from `src/path.rs`: `std::path::absolute` followed
by `PathClean::clean`.  The process-working-directory prefixing that
`std::path::absolute` performs on relative inputs is not modelled: every
canonicalization relevant to the claims happens against the already absolute
target root, so the joined input is absolute. -/
def canonicalize (p : String) : String := cleanPath p

/-- Mirrors `PathInfo::new`: join the root and the path, canonicalize the
result, and keep the original string as the display form.  The Rust function
fails only on non-UTF-8 paths, which Lean strings cannot represent, so the
embedding is total. -/
def PathInfo.new (path root_dir : String) : PathInfo :=
  { display_path := path, canonicalized := canonicalize (rustJoin root_dir path) }

/-- The `/`-separated non-empty components of a path string. -/
def pathComponents (p : String) : List String :=
  (splitOnChar '/' p).filter (fun c => c ≠ "")

/-- Rebuild an absolute path from components (`[]` gives `"/"`). -/
def joinAbs (cs : List String) : String :=
  "/" ++ joinWithSlash cs

/-- `Path::ancestors` on a cleaned absolute path: the path itself, then each
parent in turn, ending with `"/"`. -/
def ancestors (p : String) : List String :=
  ((List.range (pathComponents p).length.succ).reverse).map
    (fun k => joinAbs ((pathComponents p).take k))

/-! ## Glob-to-regex compilation (`src/config.rs::to_glob_regex`)

`to_glob_regex` rewrites the glob into a regex string by four successive
`str::replace` calls and hands the result to the `regex` crate.  The
replacement chain is modelled literally; the regex engine is modelled for the
fragment those rewrites produce (escaped literals, `.`, the class `[^/\\]`,
and postfix `+`).  A regex construct outside that fragment makes the parser
return `none`, modelling a pattern whose compilation fails. -/

/-- An atomic regex piece of the glob-generated fragment. -/
inductive RAtom where
  | lit (c : Char)
  | anyChar
  | notSep
deriving DecidableEq, Repr

/-- An atom, optionally under a postfix `+`. -/
inductive RTok where
  | once (a : RAtom)
  | plus (a : RAtom)
deriving DecidableEq, Repr

/-- Rust `str::replace` on character lists: replace every leftmost
non-overlapping occurrence of `pat` by `rep`.  The fuel argument is a
structural-recursion device; every step consumes at least one character, so
the length of the input is always enough fuel.  (Rust's behaviour for an
empty needle is irrelevant here: all needles used by `to_glob_regex` are
non-empty.) -/
def replaceL (pat rep : List Char) : Nat → List Char → List Char
  | _, [] => []
  | 0, s => s
  | fuel + 1, c :: rest =>
    if pat ≠ [] ∧ pat.isPrefixOf (c :: rest) then
      rep ++ replaceL pat rep fuel ((c :: rest).drop pat.length)
    else
      c :: replaceL pat rep fuel rest

/-- Rust `str::replace` on strings. -/
def rustReplace (s pat rep : String) : String :=
  ⟨replaceL pat.data rep.data s.data.length s.data⟩

/-- Regex characters that are special outside the fragment generated by the
glob rewrites; a bare occurrence makes compilation fail in the model. -/
def regexSpecials : List Char :=
  ['(', ')', '[', ']', '\x7b', '\x7d', '|', '^', '$', '*', '+', '?']

/-- Parse one atom of the glob-generated regex fragment. -/
def parseAtom : List Char → Option (RAtom × List Char)
  | '\\' :: c :: rest => some (RAtom.lit c, rest)
  | ['\\'] => none
  | '[' :: '^' :: '/' :: '\\' :: '\\' :: ']' :: rest => some (RAtom.notSep, rest)
  | '.' :: rest => some (RAtom.anyChar, rest)
  | c :: rest => if regexSpecials.contains c then none else some (RAtom.lit c, rest)
  | [] => none

/-- Parse the glob-generated regex fragment into tokens; fuelled by the input
length (an atom always consumes at least one character, so the fuel never runs
out when initialized with the length). -/
def parseRegexF : Nat → List Char → Option (List RTok)
  | _, [] => some []
  | 0, _ :: _ => none
  | n + 1, cs =>
    match parseAtom cs with
    | none => none
    | some (a, rest) =>
      match rest with
      | '+' :: rest2 => (parseRegexF n rest2).map (fun ts => RTok.plus a :: ts)
      | _ => (parseRegexF n rest).map (fun ts => RTok.once a :: ts)

/-- Mirrors `to_glob_regex` from `src/config.rs`: `.` to a literal dot, `**`
to `.+`, `*` to `[^/\\]+`, `?` to `.`, then regex compilation. -/
def to_glob_regex (pattern : String) : Option (List RTok) :=
  let prepared :=
    rustReplace (rustReplace (rustReplace (rustReplace pattern "." "\\.") "**" ".+") "*" "[^/\\\\]+") "?" "."
  parseRegexF prepared.data.length prepared.data

/-- Whether an atom matches one character.  The regex crate's `.` matches any
character except a newline by default. -/
def atomMatches : RAtom → Char → Bool
  | RAtom.lit c, d => c = d
  | RAtom.anyChar, d => d ≠ '\n'
  | RAtom.notSep, d => d ≠ '/' ∧ d ≠ '\\'

/-- Whether the token list matches some prefix of the character list
(backtracking existential semantics, as for a regex match at a fixed start
position).  The fuel is a structural-recursion device; every step consumes
one character, so the input length is always enough fuel. -/
def rmatchF : Nat → List RTok → List Char → Bool
  | _, [], _ => true
  | _, _ :: _, [] => false
  | 0, _ :: _, _ :: _ => false
  | fuel + 1, RTok.once a :: ts, d :: ds => atomMatches a d && rmatchF fuel ts ds
  | fuel + 1, RTok.plus a :: ts, d :: ds =>
    atomMatches a d && (rmatchF fuel ts ds || rmatchF fuel (RTok.plus a :: ts) ds)

/-- `rmatchF` with the canonical fuel. -/
def rmatch (ts : List RTok) (s : List Char) : Bool :=
  rmatchF s.length ts s

/-- Unanchored regex search (`Regex::is_match`): the tokens match starting at
some position of the input. -/
def rsearch (ts : List RTok) : List Char → Bool
  | [] => rmatch ts []
  | c :: rest => rmatch ts (c :: rest) || rsearch ts rest

/-! ## Dependency patterns (`src/config.rs::DepPattern`) -/

/-- Mirrors `DepPattern`: the canonicalized raw pattern plus a compiled regex
when the raw string contains a wildcard. -/
structure DepPattern where
  raw : PathInfo
  pattern : Option (List RTok)
deriving DecidableEq, Repr

/-- Mirrors `DepPattern::new`: compile a glob regex when the string contains
`?` or `*`; fail (`none`) exactly when the regex compilation fails. -/
def DepPattern.new (dependency : String) (root_dir : String) : Option DepPattern :=
  if dependency.data.any (fun c => c = '?' ∨ c = '*') then
    (to_glob_regex dependency).map
      (fun r => { raw := PathInfo.new dependency root_dir, pattern := some r })
  else
    some { raw := PathInfo.new dependency root_dir, pattern := none }

/-- Mirrors `DepPattern::is_match`: regex search for wildcard patterns, a
plain string-prefix test against the canonical form for literal patterns. -/
def DepPattern.is_match (p : DepPattern) (path : String) : Bool :=
  match p.pattern with
  | some patt => rsearch patt path.data
  | none => strStartsWith path p.raw.canonicalized

/-- Mirrors `DepPattern::is_child_of`: false for regex patterns. -/
def DepPattern.is_child_of (p : DepPattern) (canonicalized_path : String) : Bool :=
  match p.pattern with
  | some _ => false
  | none => strStartsWith p.raw.canonicalized canonicalized_path

/-- Mirrors `DepPattern::hash`: the canonical form of a literal pattern,
`none` for regex patterns. -/
def DepPattern.hash (p : DepPattern) : Option String :=
  match p.pattern with
  | some _ => none
  | none => some p.raw.canonicalized

/-! ## Configuration (`src/config.rs`) and CLI options (`src/cli.rs`) -/

/-- Mirrors `GoDepsConfig`. -/
structure GoDepsConfig where
  package_prefixes : List String
deriving DecidableEq, Repr

/-- Mirrors `DotnetConfig`. -/
structure DotnetConfig where
  package_namespaces : List String
deriving DecidableEq, Repr

/-- Mirrors `AutoDiscoveryConfig`. -/
structure AutoDiscoveryConfig where
  go : GoDepsConfig
  dotnet : DotnetConfig
deriving DecidableEq, Repr

/-- Mirrors `Config`. -/
structure Config where
  auto_discovery : AutoDiscoveryConfig
  global_dependencies : List String
deriving DecidableEq, Repr

/-- Mirrors `Language` from `src/config.rs`. -/
inductive Language where
  | Golang
  | Dotnet
  | Flutter
  | Kustomize
deriving DecidableEq, Repr

/-- Mirrors `DepsfileType` from `src/config.rs`. -/
inductive DepsfileType where
  | Depsfile
  | Buildfile
  | Justfile
  | Makefile
deriving DecidableEq, Repr

/-- Mirrors the `Depsfile` document: declared dependency patterns and
declared languages. -/
structure Depsfile where
  dependencies : List DepPattern
  languages : List Language
deriving DecidableEq, Repr

/-- Mirrors `BuildTrigger` from `src/service.rs`: the recorded reason a
service must build.  `Dependency`/`PeerDependency` carry the triggering
changed path and whether the match was against an auto-discovered pattern. -/
inductive BuildTrigger where
  | FileChange
  | Dependency (source : String) (auto : Bool)
  | PeerDependency (source : String) (auto : Bool)
  | GlobalDependency
deriving DecidableEq, Repr

/-- Mirrors `AutoDependency` from `src/service.rs`. -/
structure AutoDependency where
  language : Language
  pattern : DepPattern
deriving DecidableEq, Repr

/-- Mirrors `Service` from `src/service.rs`. -/
structure Service where
  path : PathInfo
  depsfile : Depsfile
  auto_dependencies : List AutoDependency
  trigger : Option BuildTrigger
deriving DecidableEq, Repr

/-- Mirrors `Service::has_trigger`. -/
def Service.has_trigger (svc : Service) : Bool :=
  svc.trigger.isSome

/-- Mirrors the `Service::trigger` setter, which calls `Option::replace`:
the stored trigger is overwritten unconditionally. -/
def Service.setTrigger (svc : Service) (t : BuildTrigger) : Service :=
  { svc with trigger := some t }

/-- Mirrors `Opts` from `src/cli.rs`, restricted to the fields the core
consumes (`output`, `verbose` and `relative` only affect printing, which is
outside the embedded core). -/
structure Opts where
  target : PathInfo
  config : Config
  supported_roots : List DepsfileType
deriving DecidableEq, Repr

/-- Mirrors `Opts::is_supported`: `Depsfile` is always supported, every other
marker kind only when listed in `supported_roots`. -/
def Opts.is_supported (opts : Opts) (filetype : DepsfileType) : Bool :=
  filetype = DepsfileType.Depsfile || opts.supported_roots.contains filetype

/-- Mirrors `map_depsfile` from `src/service.rs`: classify a marker file by
basename, then keep it only when the kind is supported. -/
def map_depsfile (filename : String) (opts : Opts) : Option DepsfileType :=
  let filetype : Option DepsfileType :=
    if filename = "Depsfile" then some DepsfileType.Depsfile
    else if filename = "Buildfile.yaml" then some DepsfileType.Buildfile
    else if filename = "justfile" then some DepsfileType.Justfile
    else if filename = "Makefile" then some DepsfileType.Makefile
    else none
  filetype.filter (fun ft => opts.is_supported ft)

/-! ## Shared string helpers for the line scanners -/

/-- Rust `str::splitn(n, sep)` with a single-character separator: at most
`n` pieces, the last piece keeps the remainder unsplit. -/
def rustSplitn (n : Nat) (sep : Char) (s : String) : List String :=
  let parts := splitOnChar sep s
  if parts.length ≤ n then parts
  else parts.take (n - 1) ++ [joinWithChar sep (parts.drop (n - 1))]

/-- Rust `str::trim_start_matches` on character lists: strip every successive
occurrence of the needle from the front.  The fuel is a structural-recursion
device; every step drops at least one character. -/
def trimStartMatchesL (pat : List Char) : Nat → List Char → List Char
  | 0, s => s
  | fuel + 1, s =>
    if pat ≠ [] ∧ pat.isPrefixOf s then
      trimStartMatchesL pat fuel (s.drop pat.length)
    else s

/-- Rust `str::trim_start_matches` with a string needle. -/
def rustTrimStartMatches (s pat : String) : String :=
  ⟨trimStartMatchesL pat.data s.data.length s.data⟩

/-- Rust `str::trim_matches` with a char needle: strip every leading and
trailing occurrence. -/
def rustTrimMatchesChar (s : String) (c : Char) : String :=
  ⟨((s.data.dropWhile (fun d => d = c)).reverse.dropWhile (fun d => d = c)).reverse⟩

/-! ## Go import scanner (`src/service/go.rs`) -/

namespace Go

/-- Mirrors `extract_from_line` from `src/service/go.rs`: take the first
quoted string of the line; if it starts with a configured package prefix,
strip the prefix (repeatedly) and surrounding slashes. -/
def extract_from_line (line : String) (config : GoDepsConfig) : Option String :=
  match rustSplitn 3 '"' line with
  | [_, imp, _] =>
    config.package_prefixes.findSome? (fun module_prefix =>
      if strStartsWith imp module_prefix then
        some (rustTrimMatchesChar (rustTrimStartMatches imp module_prefix) '/')
      else none)
  | _ => none

/-- The state machine of `find_imports` from `src/service/go.rs`, looping
over the remaining lines with the `in_imports` flag.  Note that the source
loop has no line cap: it consumes every line of the file. -/
def findImportsLoop (config : GoDepsConfig) (inImports : Bool) : List String → List String
  | [] => []
  | line :: rest =>
    if inImports then
      if strContainsChar line ')' then findImportsLoop config false rest
      else
        match extract_from_line line config with
        | some i => i :: findImportsLoop config true rest
        | none => findImportsLoop config true rest
    else if strStartsWith line "import (" then findImportsLoop config true rest
    else if strStartsWith line "import" then
      match extract_from_line line config with
      | some i => i :: findImportsLoop config false rest
      | none => findImportsLoop config false rest
    else findImportsLoop config false rest

/-- Mirrors `find_imports` from `src/service/go.rs` (the `Result` is always
`Ok` in the source, so the embedding returns the list directly). -/
def find_imports (lines : List String) (config : GoDepsConfig) : List String :=
  findImportsLoop config false lines

end Go

/-! ## Proto import scanner (`src/service/proto.rs`) -/

namespace Proto

/-- `SCAN_MAX_LINES` from `src/service/proto.rs`. -/
def SCAN_MAX_LINES : Nat := 200

/-- Mirrors `extract_from_import` from `src/service/proto.rs`: take the first
quoted string of the import line, find the first known proto whose canonical
path ends with it, and turn that proto's canonical path into a literal
dependency pattern. -/
def extract_from_import (line : String) (proto_candidates : List PathInfo) : Option DepPattern :=
  match rustSplitn 3 '"' line with
  | [_, imp, _] =>
    (proto_candidates.find? (fun proto => strEndsWith proto.canonicalized imp)).bind
      (fun referenced => DepPattern.new referenced.canonicalized referenced.canonicalized)
  | _ => none

/-- The scan loop of `extract_proto_imports`: count each line, stop beyond
`SCAN_MAX_LINES`, and collect the dependencies of lines starting with
`import`. -/
def extractLoop (proto_candidates : List PathInfo) (scanned : Nat) : List String → List DepPattern
  | [] => []
  | line :: rest =>
    if scanned + 1 > SCAN_MAX_LINES then []
    else if !strStartsWith line "import" then extractLoop proto_candidates (scanned + 1) rest
    else
      match extract_from_import line proto_candidates with
      | some i => i :: extractLoop proto_candidates (scanned + 1) rest
      | none => extractLoop proto_candidates (scanned + 1) rest

/-- Mirrors `extract_proto_imports` from `src/service/proto.rs`, with the
file contents given as its list of lines. -/
def extract_proto_imports (lines : List String) (proto_candidates : List PathInfo) : List DepPattern :=
  extractLoop proto_candidates 0 lines

/-- Mirrors `ProtoAnalyzer::dependencies`: scan each `.proto` file of the
service directory (given here as the list of the files' line contents) and
concatenate the extracted imports.  The shared lazily built index of all
repository protos is the `proto_candidates` argument. -/
def dependencies (serviceProtoFiles : List (List String)) (proto_candidates : List PathInfo) : List DepPattern :=
  (serviceProtoFiles.map (fun ls => extract_proto_imports ls proto_candidates)).flatten

end Proto

/-! ## Impact resolver (`src/dependency.rs`)

The `HashMap<String, Service>` keyed by canonical service path is modelled as
the service list itself: discovery keys services uniquely, lookups take the
first match, and updates rewrite the matching entry in place.  The final
iteration order of a `HashMap` is unspecified in the source; the model uses
list order. -/

/-- `service_map.get(key)`: the service keyed by a canonical path. -/
def lookupService (svcs : List Service) (key : String) : Option Service :=
  svcs.find? (fun svc => svc.path.canonicalized = key)

/-- `get_mut(key)` followed by `Service::trigger`. -/
def triggerService (svcs : List Service) (key : String) (t : BuildTrigger) : List Service :=
  svcs.map (fun svc => if svc.path.canonicalized = key then svc.setTrigger t else svc)

/-- The ancestor walk of `check_file_dependency`, over the remaining
ancestors of the changed path: trigger the first service owning an ancestor
with `FileChange`; after examining the project root, stop without a match. -/
def fileOwnerLoop (svcs : List Service) (root : String) : List String → List Service × Option PathInfo
  | [] => (svcs, none)
  | a :: rest =>
    match lookupService svcs a with
    | some entry => (triggerService svcs a BuildTrigger.FileChange, some entry.path)
    | none => if a = root then (svcs, none) else fileOwnerLoop svcs root rest

/-- Mirrors `check_file_dependency` from `src/dependency.rs`: walk the
changed path's ancestors starting at its parent (`ancestors().skip(1)`).
The source's `Result` error occurs only for non-UTF-8 paths, which are
unrepresentable here. -/
def check_file_dependency (svcs : List Service) (pattern : PathInfo) (root : String) :
    List Service × Option PathInfo :=
  fileOwnerLoop svcs root ((ancestors pattern.canonicalized).drop 1)

/-- The file-change attribution phase of `resolve` (lines 50-61): attribute
each changed file in turn, collecting the paths of the owning services. -/
def fileChangePass (svcs : List Service) (canon : List PathInfo) (root : String) :
    List Service × List PathInfo :=
  canon.foldl (fun acc f =>
    match check_file_dependency acc.1 f root with
    | (s2, some p) => (s2, acc.2 ++ [p])
    | (s2, none) => (s2, acc.2)) (svcs, [])

/-- Mirrors `service_has_dependency`: for the first changed file that matches
a pattern of the service, report it together with whether the match was
against an auto-discovered pattern (declared patterns are tested first). -/
def service_has_dependency (service : Service) (changed_files : List PathInfo) :
    Option (PathInfo × Bool) :=
  changed_files.findSome? (fun changed_file =>
    if service.depsfile.dependencies.any (fun dep => dep.is_match changed_file.canonicalized) then
      some (changed_file, false)
    else if service.auto_dependencies.any (fun dep => dep.pattern.is_match changed_file.canonicalized) then
      some (changed_file, true)
    else none)

/-- Mirrors `check_direct_dependencies`: every still-untriggered service with
a dependency on a changed file is triggered (the source of the trigger is the
changed file's display form) and its path collected.  Each iteration of the
source loop reads and writes only its own service, so the mutation loop is a
map paired with a filterMap. -/
def check_direct_dependencies (svcs : List Service) (changed_files : List PathInfo)
    (trigger : String → Bool → BuildTrigger) : List Service × List PathInfo :=
  (svcs.map (fun service =>
      if service.has_trigger then service
      else
        match service_has_dependency service changed_files with
        | some (file_dependency, auto_dependency) =>
          service.setTrigger (trigger file_dependency.display_path auto_dependency)
        | none => service),
   svcs.filterMap (fun service =>
      if service.has_trigger then none
      else (service_has_dependency service changed_files).map (fun _ => service.path)))

/-- The number of services without a trigger. -/
def untriggeredCount (svcs : List Service) : Nat :=
  (svcs.filter (fun svc => !svc.has_trigger)).length

/-- The peer-propagation loop of `resolve` (lines 72-78), fuelled: run
`check_direct_dependencies` with `PeerDependency` against the previous
pass's newly triggered service paths, until a pass adds nothing.  The fuel is
an artifact of total modelling; `peerLoop_fuel_irrelevant` shows any fuel
beyond the untriggered-service count yields the same result, which is the
source loop's termination argument. -/
def peerLoop : Nat → List Service → List PathInfo → List Service
  | 0, svcs, _ => svcs
  | n + 1, svcs, updated =>
    let pass := check_direct_dependencies svcs updated BuildTrigger.PeerDependency
    if pass.2.isEmpty then pass.1 else peerLoop n pass.1 pass.2

/-- The canonicalized changed files of `resolve` (its `canon_changed_files`;
the `flat_map` over `Result` is a plain map because `PathInfo::new` is total
here). -/
def canonChangedFiles (changed_files : List String) (root : String) : List PathInfo :=
  changed_files.map (fun p => PathInfo.new p root)

/-- The compiled global-dependency patterns of `resolve` (patterns whose
compilation fails are skipped by the source's `flat_map`). -/
def globalPatterns (opts : Opts) : List DepPattern :=
  opts.config.global_dependencies.filterMap
    (fun d => DepPattern.new d opts.target.canonicalized)

/-- Mirrors `resolve` from `src/dependency.rs`: canonicalize the changed
files, short-circuit on a global-dependency match, then run file-change
attribution, direct-dependency attribution and peer propagation, returning
the services that acquired a trigger. -/
def resolve (services : List Service) (changed_files : List String) (opts : Opts) : List Service :=
  let canon := canonChangedFiles changed_files opts.target.canonicalized
  if (globalPatterns opts).any (fun g => canon.any (fun f => g.is_match f.canonicalized)) then
    services.map (fun svc => svc.setTrigger BuildTrigger.GlobalDependency)
  else
    let p3 := fileChangePass services canon opts.target.canonicalized
    let p4 := check_direct_dependencies p3.1 canon BuildTrigger.Dependency
    (peerLoop (p4.1.length + 1) p4.1 (p3.2 ++ p4.2)).filter (fun svc => svc.has_trigger)

/-! ## Kustomize analyzer (`src/service/kustomize.rs`) -/

namespace Kustomize

/-- The references a kustomization manifest contributes, split by key.  This
models the result of `load_yaml` together with the five extractions of
`parse_kustomization` (`resources`, `bases`, `components`, `patches[].path`,
`configMapGenerator[].files`). -/
structure KManifest where
  resources : List String
  bases : List String
  components : List String
  patchPaths : List String
  configMapFiles : List String
deriving DecidableEq, Repr

/-- All references of a manifest, in the order `parse_kustomization` chains
them. -/
def KManifest.refs (m : KManifest) : List String :=
  m.resources ++ m.bases ++ m.components ++ m.patchPaths ++ m.configMapFiles

/-- The filesystem a kustomize traversal sees: kustomization manifests keyed
by cleaned canonical file path, plus plain files and directories (also by
cleaned path).  Lookups model `Path::metadata` / `Path::exists`, assuming the
lexical path and the filesystem path coincide (no symlinks). -/
structure KFs where
  manifests : List (String × KManifest)
  plainFiles : List String
  dirs : List String
deriving DecidableEq, Repr

/-- The manifest stored at a cleaned path. -/
def KFs.manifestAt (fs : KFs) (p : String) : Option KManifest :=
  (fs.manifests.find? (fun e => e.1 = p)).map (fun e => e.2)

/-- Whether `metadata(p)` reports a file. -/
def KFs.isFileAt (fs : KFs) (p : String) : Bool :=
  fs.plainFiles.contains p || (fs.manifestAt p).isSome

/-- Whether `metadata(p)` reports a directory. -/
def KFs.isDirAt (fs : KFs) (p : String) : Bool :=
  fs.dirs.contains p

/-- `Path::parent` for the slash-joined paths arising in the traversal. -/
def parentDir (p : String) : Option String :=
  if p = "/" ∨ p = "" then none
  else
    let parts := (splitOnChar '/' p).dropLast
    if parts = [""] then some "/" else some (joinWithSlash parts)

/-- The reference loop of `parse_kustomization`: join each reference to the
kustomization directory; a file becomes a direct dependency, a directory is
recursed into through `recurDir`, anything else is skipped.  `recurDir` is
the directory-probing continuation (`parse_kustomization_dir` one fuel level
down). -/
def parseRefs (fs : KFs) (base_dir kustomization_dir : String)
    (recurDir : String → List String → Except String (List DepPattern × List String)) :
    List String → List DepPattern → List String →
      Except String (List DepPattern × List String)
  | [], deps, vis => Except.ok (deps, vis)
  | resource :: rest, deps, vis =>
    let path := rustJoin kustomization_dir resource
    if fs.isFileAt (cleanPath path) then
      match DepPattern.new path base_dir with
      | some pattern => parseRefs fs base_dir kustomization_dir recurDir rest (deps ++ [pattern]) vis
      | none => Except.error ("invalid resource file " ++ path)
    else if fs.isDirAt (cleanPath path) then
      match recurDir path vis with
      | Except.error e => Except.error e
      | Except.ok (ds, vis2) => parseRefs fs base_dir kustomization_dir recurDir rest (deps ++ ds) vis2
    else parseRefs fs base_dir kustomization_dir recurDir rest deps vis

/-- Mirrors `parse_kustomization` from `src/service/kustomize.rs`: compute
the kustomization directory, canonicalize the path, fail with a
cyclic-dependency error on a path already in the visited set, insert it,
load the manifest and process its references (`parse_kustomization_dir` is
inlined as the directory-probing continuation).  The visited set is threaded
explicitly; `fuel` bounds the directory recursion and is an artifact of
total modelling: the cyclic-visit check, which precedes the fuel check,
makes fuel beyond the number of manifests unreachable. -/
def parse_kustomization (fs : KFs) : Nat → String → String → List String →
    Except String (List DepPattern × List String)
  | 0, path, _, visited =>
    match parentDir path with
    | none => Except.error "invalid kustomization resource"
    | some _ =>
      if visited.contains (canonicalize path) then
        Except.error ("cyclic dependency in kustomization " ++ path)
      else Except.error "recursion fuel exhausted"
  | n + 1, path, base_dir, visited =>
    match parentDir path with
    | none => Except.error "invalid kustomization resource"
    | some kustomization_dir =>
      let canonicalized := canonicalize path
      if visited.contains canonicalized then
        Except.error ("cyclic dependency in kustomization " ++ path)
      else
        match fs.manifestAt canonicalized with
        | none => Except.error ("cannot find file " ++ path)
        | some m =>
          parseRefs fs base_dir kustomization_dir
            (fun dir vis =>
              let yaml_candidate := rustJoin dir "kustomization.yaml"
              let yml_candidate := rustJoin dir "kustomization.yml"
              if (fs.manifestAt (cleanPath yaml_candidate)).isSome then
                parse_kustomization fs n yaml_candidate base_dir vis
              else if (fs.manifestAt (cleanPath yml_candidate)).isSome then
                parse_kustomization fs n yml_candidate base_dir vis
              else Except.ok ([], vis))
            m.refs [] (canonicalized :: visited)

/-- Mirrors `parse_kustomization_dir`: probe `kustomization.yaml` then
`kustomization.yml` in the directory; parse the first that exists, and
contribute nothing when neither does. -/
def parse_kustomization_dir (fs : KFs) (fuel : Nat) (dir base_dir : String)
    (visited : List String) : Except String (List DepPattern × List String) :=
  let yaml_candidate := rustJoin dir "kustomization.yaml"
  let yml_candidate := rustJoin dir "kustomization.yml"
  if (fs.manifestAt (cleanPath yaml_candidate)).isSome then
    parse_kustomization fs fuel yaml_candidate base_dir visited
  else if (fs.manifestAt (cleanPath yml_candidate)).isSome then
    parse_kustomization fs fuel yml_candidate base_dir visited
  else Except.ok ([], visited)

/-- Mirrors `KustomizeAnalyzer::dependencies`: parse each top-level
kustomization file of the service directory against a fresh visited set; the
first error aborts the analysis (`?` propagation in the source). -/
def dependencies (fs : KFs) (topKustomizations : List String) (dir : String) :
    Except String (List DepPattern) :=
  topKustomizations.foldlM (fun acc entry => do
    let r ← parse_kustomization fs (fs.manifests.length + 1) entry dir []
    pure (acc ++ r.1)) []

end Kustomize

/-! ## The shared reference finder (`src/service.rs::ReferenceFinder`)

`ReferenceFinder::extract_from` is the common shape of the justfile and
Makefile scanners: a visited set of paths per traversal, a per-file cap of
`SCAN_MAX_LINES = 300` lines, recursion into each discovered reference
before the reference itself is recorded (children first). -/

namespace RefFinder

/-- `SCAN_MAX_LINES` from `src/service.rs`. -/
def SCAN_MAX_LINES : Nat := 300

/-- The filesystem a reference traversal sees: the readable files keyed by
path, each with its lines.  A path without an entry models
`!path.is_file()`. -/
structure RFs where
  files : List (String × List String)
deriving DecidableEq, Repr

/-- The lines of the file stored at a path. -/
def RFs.linesAt (fs : RFs) (p : String) : Option (List String) :=
  (fs.files.find? (fun e => e.1 = p)).map (fun e => e.2)

/-- The filesystem with the file at `p` truncated to its first 300 lines. -/
def RFs.truncate (fs : RFs) (p : String) : RFs :=
  { files := fs.files.map (fun e => if e.1 = p then (e.1, e.2.take 300) else e) }

/-- The scan loop of `ReferenceFinder::extract_from` over the remaining
lines: count each line, break beyond `SCAN_MAX_LINES`, and for each line
the extractor turns into a reference, first recurse into it through `recur`
(the fuel-decremented `extract_from`), then record the reference itself.
The recursion path of a discovered reference is its canonical form (the
`AsRef<Path>` view of a `DepPattern`). -/
def scanLoop (extractor : String → String → Option DepPattern)
    (recur : String → List String → Except String (List DepPattern × List String))
    (parent : String) :
    Nat → List String → List String → Except String (List DepPattern × List String)
  | _, [], found => Except.ok ([], found)
  | scanned, line :: rest, found =>
    if scanned + 1 > SCAN_MAX_LINES then Except.ok ([], found)
    else
      match extractor line parent with
      | some imp =>
        match recur imp.raw.canonicalized found with
        | Except.error e => Except.error e
        | Except.ok (recDeps, found2) =>
          match scanLoop extractor recur parent (scanned + 1) rest found2 with
          | Except.error e => Except.error e
          | Except.ok (restDeps, found3) => Except.ok (recDeps ++ [imp] ++ restDeps, found3)
      | none => scanLoop extractor recur parent (scanned + 1) rest found

/-- Mirrors `ReferenceFinder::extract_from` from `src/service.rs` over an
explicit filesystem: a revisited path contributes nothing (`found.insert`
returning false), a path without a parent is an error, a missing file
contributes nothing (after being inserted), and otherwise the file's lines
are scanned with the 300-line cap.  `fuel` bounds the recursion depth and
is an artifact of total modelling; the `to_str` failure of the source only
concerns non-UTF-8 paths, which Lean strings cannot represent. -/
def extract_from (fs : RFs) (extractor : String → String → Option DepPattern) :
    Nat → String → List String → Except String (List DepPattern × List String)
  | 0, path, found =>
    if found.contains path then Except.ok ([], found)
    else Except.error "recursion fuel exhausted"
  | fuel + 1, path, found =>
    if found.contains path then Except.ok ([], found)
    else
      match Kustomize.parentDir path with
      | none => Except.error ("cannot determine parent directory: " ++ path)
      | some parent =>
        match fs.linesAt path with
        | none => Except.ok ([], path :: found)
        | some lines =>
          scanLoop extractor (fun q v => extract_from fs extractor fuel q v) parent
            0 lines (path :: found)

end RefFinder

/-! ## Concrete fixtures used by witnesses and counterexamples -/

/-- Options with a given absolute target root, global dependencies and
supported marker roots, and no auto-discovery configuration. -/
def mkOpts (root : String) (globals : List String) (roots : List DepsfileType) : Opts :=
  { target := PathInfo.new root "",
    config :=
      { auto_discovery := { go := { package_prefixes := [] }, dotnet := { package_namespaces := [] } },
        global_dependencies := globals },
    supported_roots := roots }

/-- A discovered service at an absolute directory with no declared or
auto-discovered dependencies and no trigger. -/
def mkService (dir : String) : Service :=
  { path := PathInfo.new dir "",
    depsfile := { dependencies := [], languages := [] },
    auto_dependencies := [],
    trigger := none }

/-- A 301-line Go file: 300 blank lines followed by an import of `p/x`. -/
def goLinesLong : List String :=
  List.replicate 300 "" ++ ["import \"p/x\""]

/-- A Go auto-discovery configuration with the single package prefix `p`. -/
def goCfgP : GoDepsConfig :=
  { package_prefixes := ["p"] }

/-- The repository-wide proto index of a scenario with three protos, where
`b.proto` itself imports `c.proto` on disk. -/
def protoCands : List PathInfo :=
  [PathInfo.new "/r/proto/a.proto" "",
   PathInfo.new "/r/proto/b.proto" "",
   PathInfo.new "/r/proto/c.proto" ""]

/-- An acyclic diamond of kustomizations: `/svc` references the directories
`/a` and `/b`, and both reference `/c`, which references a plain file. -/
def diamondFs : Kustomize.KFs :=
  { manifests :=
      [("/svc/kustomization.yaml", ⟨["../a", "../b"], [], [], [], []⟩),
       ("/a/kustomization.yaml", ⟨["../c"], [], [], [], []⟩),
       ("/b/kustomization.yaml", ⟨["../c"], [], [], [], []⟩),
       ("/c/kustomization.yaml", ⟨["c1.yaml"], [], [], [], []⟩)],
    plainFiles := ["/c/c1.yaml"],
    dirs := ["/a", "/b", "/c"] }

/-- The trigger stored at position `i` of a service list. -/
def triggerAt (svcs : List Service) (i : Nat) : Option BuildTrigger :=
  (svcs[i]?).bind (fun svc => svc.trigger)

/-- Positionwise trigger preservation: a trigger set in `xs` is still set,
with the same value, in `ys`. -/
def TriggerPreserves (xs ys : List Service) : Prop :=
  ∀ i t, triggerAt xs i = some t → triggerAt ys i = some t

/-- Every set trigger of the list is `FileChange`. -/
def FileChangeOnly (xs : List Service) : Prop :=
  ∀ i t, triggerAt xs i = some t → t = BuildTrigger.FileChange


/-! ## Supporting lemmas -/

/-- The proto scan loop stops immediately once the counter reaches the cap. -/
theorem proto_extractLoop_stop (cands : List PathInfo) (n : Nat) (lines : List String)
    (h : 200 ≤ n) : Proto.extractLoop cands n lines = [] := by
  cases lines with
  | nil => rfl
  | cons l rest =>
    simp only [Proto.extractLoop, Proto.SCAN_MAX_LINES]
    rw [if_pos (by omega)]

/-- The proto scan loop at counter `n` only ever looks at the first
`200 - n` lines. -/
theorem proto_extractLoop_take (cands : List PathInfo) :
    ∀ (lines : List String) (n : Nat),
      Proto.extractLoop cands n lines = Proto.extractLoop cands n (lines.take (200 - n)) := by
  intro lines
  induction lines with
  | nil => intro n; simp
  | cons l rest ih =>
    intro n
    by_cases h : 200 ≤ n
    · have h2 : 200 - n = 0 := by omega
      rw [h2, List.take_zero, proto_extractLoop_stop cands n _ h, proto_extractLoop_stop cands n _ h]
    · have h2 : 200 - n = (200 - (n + 1)) + 1 := by omega
      rw [h2, List.take_succ_cons]
      have h3 : ¬(n + 1 > Proto.SCAN_MAX_LINES) := by
        simp only [Proto.SCAN_MAX_LINES]; omega
      simp only [Proto.extractLoop]
      rw [if_neg h3, if_neg h3]
      by_cases hs : strStartsWith l "import"
      · rw [if_neg (by simp [hs]), if_neg (by simp [hs])]
        cases hext : Proto.extract_from_import l cands with
        | some i => simp only [ih (n + 1)]
        | none => exact ih (n + 1)
      · rw [if_pos (by simp [hs]), if_pos (by simp [hs])]
        exact ih (n + 1)

/-- The proto scan loop computed as a take-filter-filterMap pipeline. -/
theorem proto_extractLoop_spec (cands : List PathInfo) :
    ∀ (lines : List String) (n : Nat),
      Proto.extractLoop cands n lines =
        ((lines.take (200 - n)).filter (fun l => strStartsWith l "import")).filterMap
          (fun l => Proto.extract_from_import l cands) := by
  intro lines
  induction lines with
  | nil => intro n; simp [Proto.extractLoop]
  | cons l rest ih =>
    intro n
    by_cases h : 200 ≤ n
    · have h2 : 200 - n = 0 := by omega
      rw [h2, List.take_zero, proto_extractLoop_stop cands n _ h]
      simp
    · have h2 : 200 - n = (200 - (n + 1)) + 1 := by omega
      rw [h2, List.take_succ_cons]
      have h3 : ¬(n + 1 > Proto.SCAN_MAX_LINES) := by
        simp only [Proto.SCAN_MAX_LINES]; omega
      simp only [Proto.extractLoop]
      rw [if_neg h3]
      by_cases hs : strStartsWith l "import"
      · rw [if_neg (by simp [hs])]
        cases hext : Proto.extract_from_import l cands with
        | some i => simp [hs, hext, List.filter_cons, ih (n + 1)]
        | none => simp [hs, hext, List.filter_cons, ih (n + 1)]
      · rw [if_pos (by simp [hs])]
        rw [List.filter_cons_of_neg (by simp [hs])]
        exact ih (n + 1)

/-- The reference-finder scan loop stops immediately once the counter
reaches the cap. -/
theorem refFinder_scanLoop_stop (e : String → String → Option DepPattern)
    (r : String → List String → Except String (List DepPattern × List String))
    (parent : String) (n : Nat) (lines found : List String) (h : 300 ≤ n) :
    RefFinder.scanLoop e r parent n lines found = Except.ok ([], found) := by
  cases lines with
  | nil => rfl
  | cons l rest =>
    simp only [RefFinder.scanLoop, RefFinder.SCAN_MAX_LINES]
    rw [if_pos (by omega)]

/-- The reference-finder scan loop at counter `n` only ever looks at the
first `300 - n` lines. -/
theorem refFinder_scanLoop_take (e : String → String → Option DepPattern)
    (r : String → List String → Except String (List DepPattern × List String))
    (parent : String) :
    ∀ (lines : List String) (n : Nat) (found : List String),
      RefFinder.scanLoop e r parent n lines found =
        RefFinder.scanLoop e r parent n (lines.take (300 - n)) found := by
  intro lines
  induction lines with
  | nil => intro n found; simp
  | cons l rest ih =>
    intro n found
    by_cases h : 300 ≤ n
    · rw [show 300 - n = 0 by omega, List.take_zero,
        refFinder_scanLoop_stop e r parent n _ found h,
        refFinder_scanLoop_stop e r parent n _ found h]
    · rw [show 300 - n = (300 - (n + 1)) + 1 by omega, List.take_succ_cons]
      have h3 : ¬(n + 1 > RefFinder.SCAN_MAX_LINES) := by
        simp only [RefFinder.SCAN_MAX_LINES]; omega
      simp only [RefFinder.scanLoop]
      rw [if_neg h3, if_neg h3]
      cases hext : e l parent with
      | none => exact ih (n + 1) found
      | some imp =>
        dsimp only
        cases hrec : r imp.raw.canonicalized found with
        | error err => rfl
        | ok pr =>
          obtain ⟨recDeps, found2⟩ := pr
          dsimp only
          rw [ih (n + 1) found2]

/-- The reference-finder scan loop is a congruence in its recursion
continuation. -/
theorem refFinder_scanLoop_congr (e : String → String → Option DepPattern)
    (r1 r2 : String → List String → Except String (List DepPattern × List String))
    (h : ∀ q v, r1 q v = r2 q v) (parent : String) :
    ∀ (lines : List String) (n : Nat) (found : List String),
      RefFinder.scanLoop e r1 parent n lines found =
        RefFinder.scanLoop e r2 parent n lines found := by
  intro lines
  induction lines with
  | nil => intro n found; rfl
  | cons l rest ih =>
    intro n found
    simp only [RefFinder.scanLoop]
    by_cases hcap : n + 1 > RefFinder.SCAN_MAX_LINES
    · rw [if_pos hcap, if_pos hcap]
    · rw [if_neg hcap, if_neg hcap]
      cases hext : e l parent with
      | none => exact ih (n + 1) found
      | some imp =>
        dsimp only
        rw [h imp.raw.canonicalized found]
        cases hrec : r2 imp.raw.canonicalized found with
        | error err => rfl
        | ok pr =>
          obtain ⟨recDeps, found2⟩ := pr
          dsimp only
          rw [ih (n + 1) found2]

/-- Looking a path up after truncating one file of the store. -/
theorem find_map_truncate :
    ∀ (files : List (String × List String)) (p q : String),
      (files.map (fun e => if e.1 = p then (e.1, e.2.take 300) else e)).find?
          (fun e => e.1 = q) =
        if q = p then
          (files.find? (fun e => e.1 = q)).map (fun e => (e.1, e.2.take 300))
        else files.find? (fun e => e.1 = q) := by
  intro files
  induction files with
  | nil => intro p q; simp only [List.map_nil, List.find?_nil, Option.map_none']; split <;> rfl
  | cons a rest ih =>
    intro p q
    have h1 : ((if a.1 = p then (a.1, a.2.take 300) else a)).1 = a.1 := by split <;> rfl
    rw [List.map_cons]
    by_cases haq : a.1 = q
    · rw [List.find?_cons_of_pos _ (by rw [h1, haq]; simp),
        List.find?_cons_of_pos _ (by rw [haq]; simp)]
      by_cases hqp : q = p
      · rw [if_pos hqp, if_pos (haq.trans hqp)]
        simp
      · rw [if_neg hqp, if_neg (fun hap => hqp (haq.symm.trans hap))]
    · rw [List.find?_cons_of_neg _ (by rw [h1]; simp [haq]),
        List.find?_cons_of_neg _ (by simp [haq])]
      exact ih p q

/-- `linesAt` after truncating one file. -/
theorem refFinder_truncate_linesAt (fs : RefFinder.RFs) (p q : String) :
    (fs.truncate p).linesAt q =
      if q = p then (fs.linesAt q).map (fun ls => ls.take 300) else fs.linesAt q := by
  obtain ⟨files⟩ := fs
  simp only [RefFinder.RFs.linesAt, RefFinder.RFs.truncate]
  rw [find_map_truncate files p q]
  split
  · cases files.find? (fun e => e.1 = q) <;> rfl
  · rfl

/-- Truncating any one file of the store to its first 300 lines does not
change `ReferenceFinder::extract_from`. -/
theorem refFinder_truncate_eq :
    ∀ (fuel : Nat) (fs : RefFinder.RFs) (extractor : String → String → Option DepPattern)
      (p path : String) (found : List String),
      RefFinder.extract_from (fs.truncate p) extractor fuel path found =
        RefFinder.extract_from fs extractor fuel path found := by
  intro fuel
  induction fuel with
  | zero => intro fs e p path found; rfl
  | succ n ih =>
    intro fs e p path found
    simp only [RefFinder.extract_from]
    by_cases hf : found.contains path
    · rw [if_pos hf, if_pos hf]
    · rw [if_neg hf, if_neg hf]
      cases hpar : Kustomize.parentDir path with
      | none => rfl
      | some parent =>
        rw [refFinder_truncate_linesAt fs p path]
        by_cases hpp : path = p
        · rw [if_pos hpp]
          cases hls : fs.linesAt path with
          | none => rfl
          | some lines =>
            simp only [Option.map_some']
            rw [refFinder_scanLoop_congr e _ _ (fun q v => ih fs e p q v) parent
              (lines.take 300) 0 (path :: found)]
            rw [refFinder_scanLoop_take e _ parent lines 0 (path :: found)]
        · rw [if_neg hpp]
          cases hls : fs.linesAt path with
          | none => rfl
          | some lines =>
            exact refFinder_scanLoop_congr e _ _ (fun q v => ih fs e p q v) parent
              lines 0 (path :: found)

/-! ## Claim theorems -/

/-- C7.  Glob compilation laws: the compiled glob `a.b` matches `a.b` and
not `axb`; `a/*/c` matches `a/x/c` and not `a/x/y/c`; `a/**/c` matches
`a/x/y/c`; and a wildcard `DepPattern` matches through the compiled regex. -/
theorem glob_compilation_laws :
    ((to_glob_regex "a.b").map
        (fun r => (rsearch r "a.b".data, rsearch r "axb".data)) = some (true, false))
  ∧ ((to_glob_regex "a/*/c").map
        (fun r => (rsearch r "a/x/c".data, rsearch r "a/x/y/c".data)) = some (true, false))
  ∧ ((to_glob_regex "a/**/c").map
        (fun r => rsearch r "a/x/y/c".data) = some true)
  ∧ ((DepPattern.new "a/*/c" "/repo").map
        (fun dp => (dp.is_match "a/x/c", dp.is_match "a/x/y/c")) = some (true, false))
  ∧ ((DepPattern.new "a/**/c" "/repo").map
        (fun dp => dp.is_match "a/x/y/c") = some true) := by
  decide

/-- C8.  A literal `DepPattern` (no `?`, no `*`) matches exactly the strings
that start with its canonical form, with no directory-boundary check; in
particular the literal `shared/auth` compiled against root `/root` matches
the unrelated path `/root/shared/auth-v2/file`. -/
theorem literal_pattern_prefix_match :
    (∀ raw root p pat,
        raw.data.any (fun c => c = '?' ∨ c = '*') = false →
        DepPattern.new raw root = some pat →
        pat.is_match p = strStartsWith p (PathInfo.new raw root).canonicalized)
  ∧ ((DepPattern.new "shared/auth" "/root").map
      (fun pat => pat.is_match "/root/shared/auth-v2/file") = some true) := by
  constructor
  · intro raw root p pat h1 h2
    simp only [DepPattern.new] at h2
    rw [if_neg (by rw [h1]; simp)] at h2
    cases h2
    rfl
  · decide

/-- Witness for C8: the general prefix-match law applied at the literal
pattern `domains/foo` against the root `/repo` and a path below it. -/
theorem literal_pattern_prefix_match_witness :
    (⟨PathInfo.new "domains/foo" "/repo", (none : Option (List RTok))⟩ : DepPattern).is_match
        "/repo/domains/foo/sub" =
      strStartsWith "/repo/domains/foo/sub" (PathInfo.new "domains/foo" "/repo").canonicalized :=
  literal_pattern_prefix_match.1 "domains/foo" "/repo" "/repo/domains/foo/sub" _
    (by decide) (by decide)

/-- C6 (amended).  Marker classification: only `Depsfile` is always accepted;
`Buildfile.yaml`, `justfile` and `Makefile` are accepted exactly when the
caller opted into the corresponding kind via `supported_roots`. -/
theorem marker_acceptance :
    (∀ opts : Opts, map_depsfile "Depsfile" opts = some DepsfileType.Depsfile)
  ∧ (∀ opts : Opts, map_depsfile "Buildfile.yaml" opts =
      if opts.supported_roots.contains DepsfileType.Buildfile
      then some DepsfileType.Buildfile else none)
  ∧ (∀ opts : Opts, map_depsfile "justfile" opts =
      if opts.supported_roots.contains DepsfileType.Justfile
      then some DepsfileType.Justfile else none)
  ∧ (∀ opts : Opts, map_depsfile "Makefile" opts =
      if opts.supported_roots.contains DepsfileType.Makefile
      then some DepsfileType.Makefile else none) := by
  refine ⟨fun opts => ?_, fun opts => ?_, fun opts => ?_, fun opts => ?_⟩ <;>
    simp [map_depsfile, Opts.is_supported, Option.filter]

/-- Counterexample for C6: with no opt-in, a `Buildfile.yaml` marker is not
accepted as a service marker, contradicting the claim that `Buildfile.yaml`
is always accepted. -/
theorem buildfile_requires_opt_in_counterexample :
    map_depsfile "Buildfile.yaml" (mkOpts "/repo" [] []) = none := by
  decide

/-- C4 (amended).  The proto import scanner produces the same result as on
the file truncated to its first 300 (indeed 200) lines; the
`ReferenceFinder`-based scanners (justfile, Makefile) produce the same
result as on any one file truncated to its first 300 lines — both for the
whole recursive traversal over a filesystem and for the per-file scan loop;
the Go import scanner has no line cap, and on a 301-line file finds an
extracted import on line 301 that truncation to 300 lines loses. -/
theorem scanner_line_caps :
    (∀ (lines : List String) (cands : List PathInfo),
        Proto.extract_proto_imports lines cands =
          Proto.extract_proto_imports (lines.take 300) cands)
  ∧ (∀ (lines : List String) (cands : List PathInfo),
        Proto.extract_proto_imports lines cands =
          Proto.extract_proto_imports (lines.take 200) cands)
  ∧ (∀ (fuel : Nat) (fs : RefFinder.RFs) (extractor : String → String → Option DepPattern)
        (p path : String) (found : List String),
        RefFinder.extract_from (fs.truncate p) extractor fuel path found =
          RefFinder.extract_from fs extractor fuel path found)
  ∧ (∀ (extractor : String → String → Option DepPattern)
        (recur : String → List String → Except String (List DepPattern × List String))
        (parent : String) (lines found : List String),
        RefFinder.scanLoop extractor recur parent 0 lines found =
          RefFinder.scanLoop extractor recur parent 0 (lines.take 300) found)
  ∧ (Go.find_imports goLinesLong goCfgP = ["x"]
      ∧ Go.find_imports (goLinesLong.take 300) goCfgP = []) := by
  refine ⟨fun lines cands => ?_, fun lines cands => ?_, refFinder_truncate_eq,
    fun extractor recur parent lines found => ?_, by decide, by decide⟩
  · show Proto.extractLoop cands 0 lines = Proto.extractLoop cands 0 (lines.take 300)
    rw [proto_extractLoop_take cands lines 0, proto_extractLoop_take cands (lines.take 300) 0]
    norm_num [List.take_take]
  · exact proto_extractLoop_take cands lines 0
  · rw [refFinder_scanLoop_take extractor recur parent lines 0 found]

/-- Counterexample for C4: the Go import scanner is not bounded by 300
lines; on a file whose only import sits on line 301 it returns that import,
while the file truncated to its first 300 lines yields nothing. -/
theorem go_scanner_unbounded_counterexample :
    Go.find_imports goLinesLong goCfgP ≠ Go.find_imports (goLinesLong.take 300) goCfgP := by
  decide

/-- C5 (amended).  The proto analyzer resolves each `import` line of the
first 200 lines of each service proto by suffix-matching the import string
against the known protos' canonical paths and emits the first match as a
literal dependency; every emitted pattern stems from such a candidate.
(The source does not follow the matched proto's own imports: there is no
recursion and no visited set; see the counterexample.) -/
theorem proto_import_resolution :
    (∀ (lines : List String) (cands : List PathInfo),
        Proto.extract_proto_imports lines cands =
          ((lines.take 200).filter (fun l => strStartsWith l "import")).filterMap
            (fun l => Proto.extract_from_import l cands))
  ∧ (∀ (line : String) (cands : List PathInfo) (p : DepPattern),
        Proto.extract_from_import line cands = some p →
        ∃ referenced, referenced ∈ cands ∧
          DepPattern.new referenced.canonicalized referenced.canonicalized = some p) := by
  constructor
  · intro lines cands
    exact proto_extractLoop_spec cands lines 0
  · intro line cands p h
    simp only [Proto.extract_from_import] at h
    split at h
    · rw [Option.bind_eq_some] at h
      obtain ⟨referenced, hfind, hp⟩ := h
      exact ⟨referenced, List.mem_of_find?_eq_some hfind, hp⟩
    · cases h

/-- Witness for C5: the resolution law applied to the import line of the
scenario's `a.proto`, which suffix-matches `b.proto`. -/
theorem proto_import_resolution_witness :
    ∃ referenced, referenced ∈ protoCands ∧
      DepPattern.new referenced.canonicalized referenced.canonicalized =
        some ⟨⟨"/r/proto/b.proto", "/r/proto/b.proto"⟩, none⟩ :=
  proto_import_resolution.2 "import \"b.proto\";" protoCands _ (by decide)

/-- Counterexample for C5: in a scenario where the service's `a.proto`
imports `b.proto` and `b.proto` itself imports `c.proto` on disk, the
analyzer emits only the direct match `b.proto`; the transitive import
`c.proto` is never emitted because the matched proto's own imports are not
followed (the `TODO: support transitive dependencies` in the source). -/
theorem proto_no_transitive_counterexample :
    ((Proto.dependencies [["import \"b.proto\";"]] protoCands).map
        (fun p => p.raw.canonicalized) = ["/r/proto/b.proto"])
  ∧ ("/r/proto/c.proto" ∉
      (Proto.dependencies [["import \"b.proto\";"]] protoCands).map
        (fun p => p.raw.canonicalized)) := by
  decide

/-! ## Supporting lemmas for the resolver claims -/

/-- A service found by `lookupService` is keyed by the queried path. -/
theorem lookupService_key (svcs : List Service) (key : String) (entry : Service)
    (h : lookupService svcs key = some entry) : entry.path.canonicalized = key := by
  have := List.find?_some h
  exact of_decide_eq_true this

/-- The ancestor walk only reports services keyed by a member of the walked
list. -/
theorem fileOwnerLoop_found_mem :
    ∀ (l : List String) (svcs : List Service) (root : String) (out : List Service)
      (found : PathInfo),
      fileOwnerLoop svcs root l = (out, some found) → found.canonicalized ∈ l := by
  intro l
  induction l with
  | nil => intro svcs root out found h; cases h
  | cons a rest ih =>
    intro svcs root out found h
    simp only [fileOwnerLoop] at h
    cases hlook : lookupService svcs a with
    | some entry =>
      rw [hlook] at h
      simp only [Prod.mk.injEq, Option.some.injEq] at h
      rw [← h.2, lookupService_key svcs a entry hlook]
      exact List.mem_cons_self a rest
    | none =>
      rw [hlook] at h
      dsimp only at h
      by_cases hroot : a = root
      · rw [if_pos hroot] at h
        simp at h
      · rw [if_neg hroot] at h
        exact List.mem_cons_of_mem a (ih svcs root out found h)

/-- Joining a strict take of non-empty segments yields a strictly shorter
string. -/
theorem joinWithSlash_take_lt :
    ∀ (cs : List String) (k : Nat), (∀ c ∈ cs, c ≠ "") → k < cs.length →
      (joinWithSlash (cs.take k)).length < (joinWithSlash cs).length := by
  intro cs
  induction cs with
  | nil => intro k _ hk; simp at hk
  | cons c cs ih =>
    intro k hne hk
    have hc : c ≠ "" := hne c (List.mem_cons_self c cs)
    have hclen : 0 < c.length := by
      cases hcd : c.data with
      | nil =>
        exfalso
        apply hc
        cases c with
        | mk data => cases hcd; rfl
      | cons d ds =>
        show 0 < c.data.length
        rw [hcd]
        simp
    have hslash : ("/" : String).length = 1 := rfl
    cases cs with
    | nil =>
      have hk0 : k = 0 := by simp at hk; exact hk
      subst hk0
      show ("" : String).length < c.length
      simpa using hclen
    | cons c2 cs2 =>
      have hrec : joinWithSlash (c :: c2 :: cs2) = c ++ "/" ++ joinWithSlash (c2 :: cs2) := rfl
      cases k with
      | zero =>
        rw [List.take_zero, hrec]
        show ("" : String).length < _
        rw [String.length_append, String.length_append]
        have hz : ("" : String).length = 0 := rfl
        omega
      | succ k =>
        rw [List.take_succ_cons]
        have hih := ih k (fun x hx => hne x (List.mem_cons_of_mem c hx)) (by simpa using hk)
        cases hk2 : (c2 :: cs2).take k with
        | nil =>
          rw [show joinWithSlash [c] = c from rfl, hrec, String.length_append,
            String.length_append]
          omega
        | cons d ds =>
          rw [hk2] at hih
          rw [show joinWithSlash (c :: d :: ds) = c ++ "/" ++ joinWithSlash (d :: ds) from rfl,
            hrec, String.length_append, String.length_append, String.length_append,
            String.length_append]
          omega

/-- Every component of `pathComponents` is non-empty. -/
theorem pathComponents_ne_empty (p : String) : ∀ c ∈ pathComponents p, c ≠ "" := by
  intro c hc
  have := (List.mem_filter.mp hc).2
  exact of_decide_eq_true this

/-- Membership in the tail of the ancestor list exhibits a strict take of
the path's components. -/
theorem ancestors_drop_mem (p a : String) (h : a ∈ (ancestors p).drop 1) :
    ∃ k, k < (pathComponents p).length ∧ a = joinAbs ((pathComponents p).take k) := by
  simp only [ancestors, List.range_succ, List.reverse_append, List.reverse_singleton,
    List.singleton_append, List.map_cons, List.drop_succ_cons, List.drop_zero] at h
  obtain ⟨k, hk, rfl⟩ := List.mem_map.mp h
  rw [List.mem_reverse, List.mem_range] at hk
  exact ⟨k, hk, rfl⟩

/-- Positionwise preservation of set triggers through one
`check_direct_dependencies` pass: the pass skips every triggered service. -/
theorem trigger_preserves_check_direct (svcs : List Service) (changed : List PathInfo)
    (trig : String → Bool → BuildTrigger) :
    TriggerPreserves svcs (check_direct_dependencies svcs changed trig).1 := by
  intro i t h
  simp only [triggerAt, check_direct_dependencies] at *
  rw [List.getElem?_map]
  cases hsv : svcs[i]? with
  | none => rw [hsv] at h; cases h
  | some s =>
    rw [hsv] at h
    simp only [Option.some_bind] at h
    simp [Service.has_trigger, h]

/-- Positionwise preservation of set triggers through the whole peer loop. -/
theorem trigger_preserves_peerLoop (fuel : Nat) :
    ∀ (svcs : List Service) (upd : List PathInfo),
      TriggerPreserves svcs (peerLoop fuel svcs upd) := by
  induction fuel with
  | zero => intro svcs upd i t h; simpa [peerLoop] using h
  | succ n ih =>
    intro svcs upd i t h
    simp only [peerLoop]
    split
    · exact trigger_preserves_check_direct svcs upd _ i t h
    · exact ih _ _ i t (trigger_preserves_check_direct svcs upd _ i t h)

/-- Triggering a key by `FileChange` preserves set triggers when every set
trigger already is `FileChange`, and keeps the `FileChange`-only invariant. -/
theorem triggerService_fileChange (svcs : List Service) (key : String)
    (hinv : FileChangeOnly svcs) :
    TriggerPreserves svcs (triggerService svcs key BuildTrigger.FileChange) ∧
      FileChangeOnly (triggerService svcs key BuildTrigger.FileChange) := by
  constructor
  · intro i t h
    have ht : t = BuildTrigger.FileChange := hinv i t h
    subst ht
    simp only [triggerAt, triggerService] at *
    rw [List.getElem?_map]
    cases hsv : svcs[i]? with
    | none => rw [hsv] at h; cases h
    | some s =>
      rw [hsv] at h
      simp only [Option.some_bind] at h
      by_cases hkey : s.path.canonicalized = key
      · simp [hkey, Service.setTrigger]
      · simp [hkey, h]
  · intro i t h
    simp only [triggerAt, triggerService, List.getElem?_map] at h
    cases hsv : svcs[i]? with
    | none => rw [hsv] at h; cases h
    | some s =>
      rw [hsv] at h
      simp only [Option.map_some', Option.some_bind] at h
      by_cases hkey : s.path.canonicalized = key
      · simp only [hkey, if_true, Service.setTrigger] at h
        cases h
        rfl
      · rw [if_neg hkey] at h
        exact hinv i t (by simp [triggerAt, hsv, h])

/-- One ancestor walk either leaves the services unchanged or triggers one
key with `FileChange`. -/
theorem fileOwnerLoop_fst (svcs : List Service) (root : String) :
    ∀ (l : List String),
      (fileOwnerLoop svcs root l).1 = svcs ∨
        ∃ key, (fileOwnerLoop svcs root l).1 = triggerService svcs key BuildTrigger.FileChange := by
  intro l
  induction l with
  | nil => exact Or.inl rfl
  | cons a rest ih =>
    simp only [fileOwnerLoop]
    cases hlook : lookupService svcs a with
    | some entry => exact Or.inr ⟨a, rfl⟩
    | none =>
      by_cases hroot : a = root
      · rw [if_pos hroot]; exact Or.inl rfl
      · rw [if_neg hroot]; exact ih

/-- The first component of `fileChangePass` as a plain fold of the per-file
ancestor walks (the collected path list does not influence it). -/
theorem fileChangePass_fst (root : String) :
    ∀ (canon : List PathInfo) (svcs : List Service) (upd : List PathInfo),
      (canon.foldl (fun acc f =>
        match check_file_dependency acc.1 f root with
        | (s2, some p) => (s2, acc.2 ++ [p])
        | (s2, none) => (s2, acc.2)) (svcs, upd)).1 =
      canon.foldl (fun s f => (check_file_dependency s f root).1) svcs := by
  intro canon
  induction canon with
  | nil => intro svcs upd; rfl
  | cons f fs ih =>
    intro svcs upd
    simp only [List.foldl_cons]
    cases hc : check_file_dependency svcs f root with
    | mk s2 o =>
      cases o with
      | some p => simpa [hc] using ih s2 (upd ++ [p])
      | none => simpa [hc] using ih s2 upd

/-- The file-change phase preserves set triggers and only ever sets
`FileChange`, provided every already-set trigger is `FileChange`. -/
theorem fileChangePass_monotone (root : String) :
    ∀ (canon : List PathInfo) (svcs : List Service),
      FileChangeOnly svcs →
      TriggerPreserves svcs (canon.foldl (fun s f => (check_file_dependency s f root).1) svcs) ∧
        FileChangeOnly (canon.foldl (fun s f => (check_file_dependency s f root).1) svcs) := by
  intro canon
  induction canon with
  | nil => intro svcs hinv; exact ⟨fun i t h => h, hinv⟩
  | cons f fs ih =>
    intro svcs hinv
    simp only [List.foldl_cons]
    have hstep :
        TriggerPreserves svcs (check_file_dependency svcs f root).1 ∧
          FileChangeOnly (check_file_dependency svcs f root).1 := by
      rcases fileOwnerLoop_fst svcs root ((ancestors f.canonicalized).drop 1) with h | ⟨key, h⟩
      · constructor
        · intro i t ht; rw [show (check_file_dependency svcs f root).1 = svcs from h]; exact ht
        · intro i t ht
          exact hinv i t (by rw [show (check_file_dependency svcs f root).1 = svcs from h] at ht; exact ht)
      · have := triggerService_fileChange svcs key hinv
        constructor
        · intro i t ht
          rw [show (check_file_dependency svcs f root).1 =
            triggerService svcs key BuildTrigger.FileChange from h]
          exact this.1 i t ht
        · intro i t ht
          refine this.2 i t ?_
          rw [show (check_file_dependency svcs f root).1 =
            triggerService svcs key BuildTrigger.FileChange from h] at ht
          exact ht
    have hrest := ih (check_file_dependency svcs f root).1 hstep.2
    exact ⟨fun i t ht => hrest.1 i t (hstep.1 i t ht), hrest.2⟩

/-- `untriggeredCount` of a cons. -/
theorem untriggeredCount_cons (x : Service) (xs : List Service) :
    untriggeredCount (x :: xs) = (if x.has_trigger then 0 else 1) + untriggeredCount xs := by
  by_cases h : x.has_trigger
  · simp [untriggeredCount, List.filter_cons, h]
  · simp [untriggeredCount, List.filter_cons, h, Nat.add_comm]

/-- The head of a `check_direct_dependencies` result. -/
theorem check_direct_cons (changed : List PathInfo) (trig : String → Bool → BuildTrigger)
    (s : Service) (rest : List Service) :
    check_direct_dependencies (s :: rest) changed trig =
      ((if s.has_trigger then s
        else
          match service_has_dependency s changed with
          | some (fd, ad) => s.setTrigger (trig fd.display_path ad)
          | none => s) :: (check_direct_dependencies rest changed trig).1,
       (if s.has_trigger then (check_direct_dependencies rest changed trig).2
        else
          match service_has_dependency s changed with
          | some _ => s.path :: (check_direct_dependencies rest changed trig).2
          | none => (check_direct_dependencies rest changed trig).2)) := by
  by_cases hs : s.has_trigger
  · simp [check_direct_dependencies, hs]
  · cases hdep : service_has_dependency s changed with
    | some fdad => simp [check_direct_dependencies, hs, hdep]
    | none => simp [check_direct_dependencies, hs, hdep]

/-- Accounting for one `check_direct_dependencies` pass: the services that
lose their untriggered status are exactly the collected paths. -/
theorem check_direct_untriggered_account (changed : List PathInfo)
    (trig : String → Bool → BuildTrigger) :
    ∀ (svcs : List Service),
      untriggeredCount (check_direct_dependencies svcs changed trig).1 +
        ((check_direct_dependencies svcs changed trig).2).length = untriggeredCount svcs := by
  intro svcs
  induction svcs with
  | nil => rfl
  | cons s rest ih =>
    rw [check_direct_cons, untriggeredCount_cons s rest]
    by_cases hs : s.has_trigger
    · simp only [hs, if_true]
      rw [untriggeredCount_cons, hs, if_pos rfl]
      omega
    · simp only [hs, if_false, Bool.false_eq_true]
      cases hdep : service_has_dependency s changed with
      | some fdad =>
        obtain ⟨fd, ad⟩ := fdad
        simp only [hdep]
        rw [untriggeredCount_cons]
        have htrig : (s.setTrigger (trig fd.display_path ad)).has_trigger = true := rfl
        rw [htrig, if_pos rfl, List.length_cons]
        omega
      | none =>
        simp only [hdep]
        rw [untriggeredCount_cons]
        have hs' : s.has_trigger = false := by simpa using hs
        rw [hs']
        simp only [Bool.false_eq_true, if_false]
        omega

/-- When nothing is untriggered, a pass changes nothing and collects
nothing. -/
theorem check_direct_all_triggered (changed : List PathInfo)
    (trig : String → Bool → BuildTrigger) :
    ∀ (svcs : List Service), untriggeredCount svcs = 0 →
      check_direct_dependencies svcs changed trig = (svcs, []) := by
  intro svcs
  induction svcs with
  | nil => intro _; rfl
  | cons s rest ih =>
    intro h0
    rw [untriggeredCount_cons] at h0
    by_cases hs : s.has_trigger
    · have hrest := ih (by rw [if_pos hs] at h0; omega)
      have hm := congrArg Prod.fst hrest
      have hf := congrArg Prod.snd hrest
      rw [check_direct_cons]
      simp only [hs, if_true] at *
      rw [hm, hf]
    · rw [if_neg hs] at h0
      omega

/-- Any fuel beyond the untriggered-service count yields the fixpoint. -/
theorem peerLoop_fuel_sufficient :
    ∀ (k : Nat) (svcs : List Service) (upd : List PathInfo) (m : Nat),
      untriggeredCount svcs ≤ k → k + 1 ≤ m →
      peerLoop m svcs upd = peerLoop (k + 1) svcs upd := by
  intro k
  induction k with
  | zero =>
    intro svcs upd m h hm
    have h0 : untriggeredCount svcs = 0 := by omega
    obtain ⟨m', rfl⟩ : ∃ m'', m = m'' + 1 := ⟨m - 1, by omega⟩
    simp only [peerLoop, check_direct_all_triggered upd BuildTrigger.PeerDependency svcs h0]
    simp
  | succ k ih =>
    intro svcs upd m h hm
    obtain ⟨m', rfl⟩ : ∃ m'', m = m'' + 1 := ⟨m - 1, by omega⟩
    simp only [peerLoop]
    split
    · rfl
    · rename_i hne
      have hacc := check_direct_untriggered_account upd BuildTrigger.PeerDependency svcs
      have hlen :
          0 < ((check_direct_dependencies svcs upd BuildTrigger.PeerDependency).2).length := by
        cases hl : (check_direct_dependencies svcs upd BuildTrigger.PeerDependency).2 with
        | nil => rw [hl] at hne; simp at hne
        | cons x xs => simp [hl]
      have hless :
          untriggeredCount (check_direct_dependencies svcs upd BuildTrigger.PeerDependency).1 ≤ k := by
        omega
      exact ih _ _ m' hless (by omega)

/-! ## Resolver claim theorems -/

/-- C1.  Global short-circuit: when any compiled global-dependency pattern
matches any canonicalized changed file, `resolve` returns every discovered
service, each carrying the `GlobalDependency` trigger, and no later phase
runs (the result is literally the input list with every trigger set). -/
theorem global_short_circuit :
    ∀ (services : List Service) (changed_files : List String) (opts : Opts),
      ((globalPatterns opts).any (fun g =>
          (canonChangedFiles changed_files opts.target.canonicalized).any
            (fun f => g.is_match f.canonicalized)) = true) →
      (resolve services changed_files opts =
        services.map (fun svc => svc.setTrigger BuildTrigger.GlobalDependency))
      ∧ (∀ svc ∈ resolve services changed_files opts,
          svc.trigger = some BuildTrigger.GlobalDependency) := by
  intro services changed_files opts h
  have heq : resolve services changed_files opts =
      services.map (fun svc => svc.setTrigger BuildTrigger.GlobalDependency) := by
    simp only [resolve]
    rw [if_pos h]
  refine ⟨heq, ?_⟩
  intro svc hsvc
  rw [heq] at hsvc
  obtain ⟨s, _, rfl⟩ := List.mem_map.mp hsvc
  rfl

/-- Witness for C1: a concrete repository with one service, a global pattern
`ci` and a changed file below `ci/`. -/
theorem global_short_circuit_witness :
    resolve [mkService "/r/a"] ["ci/p.yml"] (mkOpts "/r" ["ci"] []) =
      [mkService "/r/a"].map (fun svc => svc.setTrigger BuildTrigger.GlobalDependency) :=
  (global_short_circuit [mkService "/r/a"] ["ci/p.yml"] (mkOpts "/r" ["ci"] []) (by decide)).1

/-- C2.  Triggers are set-once and never cleared: the file-change phase
preserves existing triggers (all of which are `FileChange`) and only sets
`FileChange`; a direct-dependency pass skips every triggered service; the
peer loop does too; and composing the phases of `resolve`, every trigger
present after the file-change phase survives, unchanged, to the final
propagation state. -/
theorem triggers_set_once :
    (∀ (svcs : List Service) (canon : List PathInfo) (root : String),
        FileChangeOnly svcs →
        TriggerPreserves svcs (fileChangePass svcs canon root).1 ∧
          FileChangeOnly (fileChangePass svcs canon root).1)
  ∧ (∀ (svcs : List Service) (changed : List PathInfo) (trig : String → Bool → BuildTrigger),
        TriggerPreserves svcs (check_direct_dependencies svcs changed trig).1)
  ∧ (∀ (fuel : Nat) (svcs : List Service) (upd : List PathInfo),
        TriggerPreserves svcs (peerLoop fuel svcs upd))
  ∧ (∀ (services : List Service) (changed_files : List String) (opts : Opts),
        TriggerPreserves
          (fileChangePass services (canonChangedFiles changed_files opts.target.canonicalized)
            opts.target.canonicalized).1
          (peerLoop
            ((check_direct_dependencies
                (fileChangePass services
                  (canonChangedFiles changed_files opts.target.canonicalized)
                  opts.target.canonicalized).1
                (canonChangedFiles changed_files opts.target.canonicalized)
                BuildTrigger.Dependency).1.length + 1)
            (check_direct_dependencies
              (fileChangePass services
                (canonChangedFiles changed_files opts.target.canonicalized)
                opts.target.canonicalized).1
              (canonChangedFiles changed_files opts.target.canonicalized)
              BuildTrigger.Dependency).1
            ((fileChangePass services (canonChangedFiles changed_files opts.target.canonicalized)
                opts.target.canonicalized).2 ++
              (check_direct_dependencies
                (fileChangePass services
                  (canonChangedFiles changed_files opts.target.canonicalized)
                  opts.target.canonicalized).1
                (canonChangedFiles changed_files opts.target.canonicalized)
                BuildTrigger.Dependency).2))) := by
  have hpass : ∀ (svcs : List Service) (canon : List PathInfo) (root : String),
      FileChangeOnly svcs →
      TriggerPreserves svcs (fileChangePass svcs canon root).1 ∧
        FileChangeOnly (fileChangePass svcs canon root).1 := by
    intro svcs canon root hinv
    have hfst : (fileChangePass svcs canon root).1 =
        canon.foldl (fun s f => (check_file_dependency s f root).1) svcs :=
      fileChangePass_fst root canon svcs []
    rw [hfst]
    exact fileChangePass_monotone root canon svcs hinv
  refine ⟨hpass, trigger_preserves_check_direct, trigger_preserves_peerLoop, ?_⟩
  intro services changed_files opts i t h
  exact trigger_preserves_peerLoop _ _ _ i t
    (trigger_preserves_check_direct _ _ _ i t h)

/-- Witness for C2: a service already triggered by `FileChange` keeps that
exact trigger through a direct-dependency pass and a peer loop on a concrete
input. -/
theorem triggers_set_once_witness :
    triggerAt (check_direct_dependencies
      [{ mkService "/r/a" with trigger := some BuildTrigger.FileChange }]
      [PathInfo.new "x" "/r"] BuildTrigger.Dependency).1 0 = some BuildTrigger.FileChange :=
  triggers_set_once.2.1
    [{ mkService "/r/a" with trigger := some BuildTrigger.FileChange }]
    [PathInfo.new "x" "/r"] BuildTrigger.Dependency 0 BuildTrigger.FileChange (by decide)

/-- C3.  The peer-propagation loop terminates: a pass turns exactly the
collected services from untriggered to triggered (so the triggered set grows
monotonically within the finite service universe), and any fuel beyond the
number of untriggered services yields the same final state: the loop
stabilizes after at most `untriggeredCount + 1` passes. -/
theorem peer_loop_terminates :
    (∀ (svcs : List Service) (changed : List PathInfo) (trig : String → Bool → BuildTrigger),
        untriggeredCount (check_direct_dependencies svcs changed trig).1 +
          ((check_direct_dependencies svcs changed trig).2).length = untriggeredCount svcs)
  ∧ (∀ (svcs : List Service) (upd : List PathInfo) (m n : Nat),
        untriggeredCount svcs + 1 ≤ m → untriggeredCount svcs + 1 ≤ n →
        peerLoop m svcs upd = peerLoop n svcs upd) := by
  refine ⟨fun svcs changed trig => check_direct_untriggered_account changed trig svcs,
    fun svcs upd m n hm hn => ?_⟩
  rw [peerLoop_fuel_sufficient (untriggeredCount svcs) svcs upd m le_rfl hm,
    peerLoop_fuel_sufficient (untriggeredCount svcs) svcs upd n le_rfl hn]

/-- Witness for C3: on a concrete one-service universe, fuel 2 and fuel 5
give the same peer-loop result. -/
theorem peer_loop_terminates_witness :
    peerLoop 2 [mkService "/r/a"] [] = peerLoop 5 [mkService "/r/a"] [] :=
  peer_loop_terminates.2 [mkService "/r/a"] [] 2 5 (by decide) (by decide)

/-- C9.  `parse_kustomization` fails with a cyclic-dependency error on every
repeated visit of an already-visited canonical kustomization path, and in
the concrete acyclic diamond (the service references `/a` and `/b`, which
both reference `/c`) the whole analysis errors even though no true cycle
exists. -/
theorem kustomize_revisit_error :
    (∀ (fs : Kustomize.KFs) (fuel : Nat) (path base_dir : String)
        (visited : List String) (d : String),
        Kustomize.parentDir path = some d →
        canonicalize path ∈ visited →
        Kustomize.parse_kustomization fs fuel path base_dir visited =
          Except.error ("cyclic dependency in kustomization " ++ path))
  ∧ (Kustomize.dependencies diamondFs ["/svc/kustomization.yaml"] "/svc" =
      Except.error ("cyclic dependency in kustomization " ++ "/svc/../b/../c/kustomization.yaml")) := by
  constructor
  · intro fs fuel path base_dir visited d hd hv
    have hc : visited.contains (canonicalize path) = true := List.elem_iff.mpr hv
    cases fuel with
    | zero =>
      simp only [Kustomize.parse_kustomization, hd]
      rw [if_pos hc]
    | succ n =>
      simp only [Kustomize.parse_kustomization, hd]
      rw [if_pos hc]
  · decide

/-- Witness for C9: the revisit law applied at a concrete visited set that
already contains the canonical path. -/
theorem kustomize_revisit_error_witness :
    Kustomize.parse_kustomization diamondFs 3 "/c/kustomization.yaml" "/svc"
        ["/c/kustomization.yaml"] =
      Except.error ("cyclic dependency in kustomization " ++ "/c/kustomization.yaml") :=
  kustomize_revisit_error.1 diamondFs 3 "/c/kustomization.yaml" "/svc"
    ["/c/kustomization.yaml"] "/c" (by decide) (by decide)

/-- C10.  The ancestor walk of file-change attribution starts at the changed
path's parent: a reported owner always lies strictly above the changed path
(its canonical path is a proper-ancestor string, hence different from the
changed path), and concretely a changed entry equal to a service directory
does not set that service's trigger. -/
theorem file_change_skips_self :
    (∀ (svcs : List Service) (p : PathInfo) (root : String) (out : List Service)
        (found : PathInfo),
        p.canonicalized = joinAbs (pathComponents p.canonicalized) →
        check_file_dependency svcs p root = (out, some found) →
        found.canonicalized ∈ (ancestors p.canonicalized).drop 1 ∧
          found.canonicalized ≠ p.canonicalized)
  ∧ (check_file_dependency [mkService "/r/a"] (PathInfo.new "a" "/r") "/r" =
      ([mkService "/r/a"], none)) := by
  constructor
  · intro svcs p root out found hclean hres
    have hmem : found.canonicalized ∈ (ancestors p.canonicalized).drop 1 :=
      fileOwnerLoop_found_mem _ svcs root out found hres
    refine ⟨hmem, ?_⟩
    obtain ⟨k, hk, ha⟩ := ancestors_drop_mem p.canonicalized found.canonicalized hmem
    intro heq
    have hlt := joinWithSlash_take_lt (pathComponents p.canonicalized) k
      (pathComponents_ne_empty p.canonicalized) hk
    have h1 : (joinAbs ((pathComponents p.canonicalized).take k)).length <
        (joinAbs (pathComponents p.canonicalized)).length := by
      simp only [joinAbs, String.length_append]
      omega
    have e1 : joinAbs ((pathComponents p.canonicalized).take k) = p.canonicalized := by
      rw [← ha]; exact heq
    have e2 : joinAbs ((pathComponents p.canonicalized).take k) =
        joinAbs (pathComponents p.canonicalized) := e1.trans hclean
    rw [e2] at h1
    omega
  · decide

/-- Witness for C10: the strictness law applied to a service at `/r/a` and a
changed file `/r/a/f.txt` strictly below it. -/
theorem file_change_skips_self_witness :
    ((⟨"/r/a", "/r/a"⟩ : PathInfo).canonicalized ∈
        (ancestors (PathInfo.new "a/f.txt" "/r").canonicalized).drop 1)
  ∧ (⟨"/r/a", "/r/a"⟩ : PathInfo).canonicalized ≠ (PathInfo.new "a/f.txt" "/r").canonicalized :=
  file_change_skips_self.1 [mkService "/r/a"] (PathInfo.new "a/f.txt" "/r") "/r"
    [{ mkService "/r/a" with trigger := some BuildTrigger.FileChange }] ⟨"/r/a", "/r/a"⟩
    (by decide) (by decide)

end Monodeps
